import Mathlib

/-!
Verification development for the text-overlay engine in `src/lib.rs` of
`create-social-card`.

Modelling conventions:
* `f32` values (font sizes, coverage, glyph positions) are modelled as `ℚ`.
  All arithmetic the claims depend on is exact at the inputs considered.
* `u32`/`usize` values are `ℕ`; unchecked Rust arithmetic is modelled by
  checked operations that `panic` on wrap (Rust's debug semantics; overflow
  is a program error in Rust regardless of build profile).
* Fallible paths return `RunResult`, which distinguishes a Rust panic from
  the four error kinds of the spec (`GeometryError`, `ColorParseError`,
  `FontNotFound`, `FitError`); all `anyhow` errors in the source are mapped
  to these kinds.
* External collaborators (the `glyph_brush_layout` crate's line breaker and
  glyph layout, the `image` crate's blur/overlay, the rasterizer) are
  parameters of the model (`Externals`); everything else is translated
  directly from the source.
-/

namespace CSC

/-- RGBA8 pixel; channel values are `ℕ` in 0..=255 (`u8`). -/
structure Pixel where
  r : ℕ
  g : ℕ
  b : ℕ
  a : ℕ
deriving DecidableEq, Repr

/-- Rust `as u8` cast from `f32`: truncate toward zero, saturating at 0 and 255. -/
def toU8 (x : ℚ) : ℕ :=
  if x < 0 then 0 else min 255 (⌊x⌋).toNat

/-- The spec's error kinds (section 7); the source uses `anyhow` strings. -/
inductive Err where
  | geomError
  | colorError
  | fontError
  | fitError
deriving DecidableEq, Repr

/-- Outcome of running a piece of the Rust code: a panic, an error
returned to the caller, or a value. -/
inductive RunResult (α : Type) where
  | panic : RunResult α
  | err : Err → RunResult α
  | ok : α → RunResult α
deriving DecidableEq, Repr

/-- `u32` addition (`a + b`); wrapping is a panic (Rust debug semantics). -/
def add32 (a b : ℕ) : RunResult ℕ :=
  if a + b < 2 ^ 32 then .ok (a + b) else .panic

/-- `u32`/`usize` subtraction (`a - b`); underflow is a panic (Rust debug semantics). -/
def sub32 (a b : ℕ) : RunResult ℕ :=
  if b ≤ a then .ok (a - b) else .panic

/-- Value of a hexadecimal digit, as accepted by `u32::from_str_radix(_, 16)`. -/
def hexDigitVal (c : Char) : Option ℕ :=
  if ('0' ≤ c ∧ c ≤ '9') then some (c.toNat - 48)
  else if ('a' ≤ c ∧ c ≤ 'f') then some (c.toNat - 87)
  else if ('A' ≤ c ∧ c ≤ 'F') then some (c.toNat - 55)
  else none

/-- Accumulate hex digits left to right; `none` on the first non-digit. -/
def hexAccum : List Char → ℕ → Option ℕ
  | [], acc => some acc
  | c :: cs, acc =>
    match hexDigitVal c with
    | none => none
    | some d => hexAccum cs (acc * 16 + d)

/-- `u32::from_str_radix(s, 16)`: an optional leading `+`, then at least one
hex digit, value below `2^32`; anything else is an error (`none`). -/
def fromStrRadix16 (s : List Char) : Option ℕ :=
  let t := match s with
    | '+' :: rest => rest
    | _ => s
  match t with
  | [] => none
  | _ =>
    match hexAccum t 0 with
    | none => none
    | some v => if v < 2 ^ 32 then some v else none

/-- `parse_color` (src/lib.rs:397-420), translated faithfully: the leading
`#` is stripped into `hex`, but `from_str_radix` is called on the original
unstripped string `color`; the 6/8-digit length test is made on `hex`. -/
def parse_color (s : List Char) : RunResult Pixel :=
  let hex := if s.head? = some '#' then s.tail else s
  match fromStrRadix16 s with
  | none => .err .colorError
  | some v =>
    let alpha : ℕ := if hex.length = 8 then v % 256 else 255
    let color : ℕ := if hex.length = 8 then v / 256 else v
    if hex.length = 6 ∨ hex.length = 8 then
      .ok ⟨color / 2 ^ 16 % 256, color / 2 ^ 8 % 256, color % 256, alpha⟩
    else
      .err .colorError

/-- The `Color` union (src/lib.rs:17-23). -/
inductive Color where
  | rgb (r g b : ℕ)
  | rgba (r g b a : ℕ)
  | rgbString (s : List Char)
deriving DecidableEq, Repr

/-- `Pixel::try_from(&Color)` (src/lib.rs:31-41). -/
def Color.toPixel : Color → RunResult Pixel
  | .rgb r g b => .ok ⟨r, g, b, 255⟩
  | .rgba r g b a => .ok ⟨r, g, b, a⟩
  | .rgbString s => parse_color s

/-- `blend` (src/lib.rs:384-395): over-compositing of `src` onto `dest` at
fractional alpha; full replace at alpha ≥ 1. Each channel is cast back with
`as u8`. -/
def blend (dest src : Pixel) (srcAlpha : ℚ) : Pixel :=
  if 1 ≤ srcAlpha then src
  else
    ⟨toU8 ((dest.r : ℚ) * (1 - srcAlpha) + (src.r : ℚ) * srcAlpha),
     toU8 ((dest.g : ℚ) * (1 - srcAlpha) + (src.g : ℚ) * srcAlpha),
     toU8 ((dest.b : ℚ) * (1 - srcAlpha) + (src.b : ℚ) * srcAlpha),
     toU8 ((dest.a : ℚ) * (1 - srcAlpha) + srcAlpha * 255)⟩

/-- `p[3] = ((p[3] as f32) * c) as u8` (src/lib.rs:574, 587): scale a pixel's
alpha channel by the coverage. -/
def scaleAlpha (p : Pixel) (c : ℚ) : Pixel :=
  ⟨p.r, p.g, p.b, toU8 ((p.a : ℚ) * c)⟩

/-- The value stored into the text layer for a glyph pixel (src/lib.rs:570-579).
`old` is the layer's current pixel at the target coordinate: the source
overwrites it via `put_pixel` without reading it, blending against the
block's background color `bgPixel` instead. -/
def drawTextPixel (_old bgPixel color : Pixel) (c : ℚ) : Pixel :=
  if c < 1 then blend bgPixel (scaleAlpha color c) c else color

/-- The value stored into the shadow layer for a glyph pixel
(src/lib.rs:585-591): the shadow color with scaled alpha below full
coverage, but the run's text color `color` at full coverage. -/
def drawShadowPixel (shadowColor color : Pixel) (c : ℚ) : Pixel :=
  if c < 1 then scaleAlpha shadowColor c else color

/-- `Rect` (src/lib.rs:155-161): `u32` pixel coordinates. -/
structure Rect where
  top : ℕ
  bottom : ℕ
  left : ℕ
  right : ℕ
deriving DecidableEq, Repr

/-- Horizontal alignment (src/lib.rs:56-62). -/
inductive HAlign where
  | left
  | center
  | right
deriving DecidableEq, Repr

/-- Vertical alignment (src/lib.rs:80-86). -/
inductive VAlign where
  | top
  | center
  | bottom
deriving DecidableEq, Repr

/-- `Shadow` (src/lib.rs:147-153). The blur sigma (`f32`) is modelled as `ℚ`. -/
structure Shadow where
  x : ℕ
  y : ℕ
  blur : Option ℚ
  color : Option Color
deriving DecidableEq, Repr

/-- `BlockBorder` (src/lib.rs:104-111). -/
structure BlockBorder where
  width : ℕ
  color : Color
  shadow : Option Shadow
deriving DecidableEq, Repr

/-- A text run (`Text`, src/lib.rs:140-145). Only the byte length of the
run's string is relevant to the fitting algorithm; the string content feeds
the external line breaker and layout, which the model takes as parameters.
The same structure models the per-line segments the no-wrap path synthesizes. -/
structure TextRun where
  font : String
  len : ℕ
  color : Option Color
deriving DecidableEq, Repr

/-- `Block` (src/lib.rs:117-138). -/
structure Block where
  minSize : ℚ
  maxSize : ℚ
  text : List TextRun
  rect : Rect
  shadow : Option Shadow
  background : Option Color
  border : Option BlockBorder
  padding : Option Rect
  wrap : Bool
  hAlign : HAlign
  vAlign : VAlign
  color : Color
deriving DecidableEq, Repr

/-- A font catalog entry (`FontDef`, src/lib.rs:43-47) together with the two
metrics `pt_size_to_px_scale` reads from the `ab_glyph` font object. The
source unwraps `units_per_em()`; the model assumes it present. -/
structure FontDef where
  name : String
  unitsPerEm : ℚ
  heightUnscaled : ℚ
deriving DecidableEq, Repr

/-- `pt_size_to_px_scale` (src/lib.rs:163-168):
`px_per_em = pt * screen_scale * (96/72)`, scaled by
`height_unscaled / units_per_em`. Returns the (uniform) pixel scale. -/
def ptSizeToPxScale (f : FontDef) (ptSize screenScale : ℚ) : ℚ :=
  ptSize * screenScale * (96 / 72) * f.heightUnscaled / f.unitsPerEm

/-- The fields of a `SectionGlyph` that the fitting algorithm inspects:
the glyph's `position.y`, its `section_index` and its `byte_index`. -/
structure SectionGlyph where
  y : ℚ
  sectionIndex : ℕ
  byteIndex : ℕ
deriving DecidableEq, Repr

/-- Number of iterations the `while font_size >= min_size` loops can make
before `font_size` (decremented by 4 each round) drops below `min_size`.
Used as exact fuel for the loop models. -/
def fuelFor (minS s : ℚ) : ℕ :=
  if s < minS then 0 else (⌊(s - minS) / 4⌋).toNat + 1

/-- The inner fitting loop (src/lib.rs:307-346):
`while font_size >= min_size { if check(font_size) { break } else { font_size -= 4.0 } }`,
returning the final `font_size`. The check may panic (`none`), modelling the
`glyphs.last().unwrap()` on an empty glyph vector. Called with fuel
`fuelFor minS s`, which is exactly the number of guard-true iterations
possible, so the fuel-exhausted base case coincides with the guard failing. -/
def sizeLoop (check : ℚ → Option Bool) (minS : ℚ) : ℚ → ℕ → RunResult ℚ
  | s, 0 => .ok s
  | s, fuel + 1 =>
    if minS ≤ s then
      match check s with
      | none => .panic
      | some true => .ok s
      | some false => sizeLoop check minS (s - 4) fuel
    else .ok s

/-- Entry point for `sizeLoop` with the exact fuel. -/
def runSizeLoop (check : ℚ → Option Bool) (minS s : ℚ) : RunResult ℚ :=
  sizeLoop check minS s (fuelFor minS s)

/-- The wrap-mode fit check for one candidate size (src/lib.rs:315-328):
`let last_glyph = glyphs.last().unwrap();` (panic when no glyphs), then
`last_glyph.section_index == sections.len() - 1 && last_glyph.byte_index ==
last_section_byte_index && last_glyph.glyph.position.y < rect.bottom as f32`. -/
def wrapLineCheck (glyphs : List SectionGlyph) (sectionCount lastByteIndex rectBottom : ℕ) :
    Option Bool :=
  match glyphs.getLast? with
  | none => none
  | some g =>
    some (decide (g.sectionIndex = sectionCount - 1 ∧ g.byteIndex = lastByteIndex ∧
      g.y < (rectBottom : ℚ)))

/-- The fit test run at each candidate size for one line (src/lib.rs:313-338):
the wrap check in wrap mode, the glyph-count check in no-wrap mode. -/
def lineCheck (glyphsAt : ℕ → ℚ → List SectionGlyph) (wrap : Bool) (line : List TextRun)
    (i lastByteIndex rectBottom : ℕ) (t : ℚ) : Option Bool :=
  if wrap then wrapLineCheck (glyphsAt i t) line.length lastByteIndex rectBottom
  else some (decide ((glyphsAt i t).length = (line.map (fun r => r.len)).sum))

/-- The per-line loop of `fit_glyphs` (src/lib.rs:295-347): iterate over the
lines' section lists, skipping empty ones, and run the fitting loop for each,
threading `font_size` from line to line. `glyphsAt i s` abstracts
`layout.calculate_glyphs` for line `i` with all scales set from size `s`
(src/lib.rs:309-313). `last_section_byte_index` is
`sections.last().unwrap().text.len() - 1` (src/lib.rs:306), a `usize`
subtraction that panics on a zero-length last section. -/
def fitLines (glyphsAt : ℕ → ℚ → List SectionGlyph) (wrap : Bool) (minS : ℚ)
    (rectBottom : ℕ) : List (List TextRun) → ℕ → ℚ → RunResult ℚ
  | [], _, s => .ok s
  | line :: rest, i, s =>
    if line.isEmpty then fitLines glyphsAt wrap minS rectBottom rest (i + 1) s
    else
      let lastLen := ((line.getLast?).map (fun t => t.len)).getD 0
      match sub32 lastLen 1 with
      | .panic => .panic
      | .err e => .err e
      | .ok lastByteIndex =>
        match runSizeLoop (lineCheck glyphsAt wrap line i lastByteIndex rectBottom) minS s with
        | .panic => .panic
        | .err e => .err e
        | .ok s2 => fitLines glyphsAt wrap minS rectBottom rest (i + 1) s2

/-- Is some run's font name absent from the catalog? (src/lib.rs:271-291:
building the `SectionText`s fails with "Could not find font named ..." on
the first miss.) -/
def anyFontMissing (fonts : List FontDef) (lines : List (List TextRun)) : Bool :=
  lines.any (fun line => line.any (fun t => (fonts.find? (fun f => f.name = t.font)).isNone))

/-- Stop condition of the no-wrap pre-sizing loop (src/lib.rs:257-262): the
loop keeps decrementing while `line_height * number_of_lines >= text_height`,
so a size is accepted exactly when the product is strictly below the height. -/
def heightCheck (sf : FontDef) (numLines textHeight : ℕ) (s : ℚ) : Bool :=
  decide (ptSizeToPxScale sf s 1 * (numLines : ℚ) < (textHeight : ℚ))

/-- The no-wrap side of the mode branch (src/lib.rs:196-268): look up the
sizing font of the first run (`options.text[0]` panics on an empty run
list, src/lib.rs:255), run the height pre-sizing loop, and fail with
FitError when it drops below `min_size`. -/
def fitBranchNoWrap (fonts : List FontDef) (noWrapLines : List (List TextRun))
    (textHeight : ℕ) (minS maxS : ℚ) :
    List TextRun → RunResult (List (List TextRun) × ℚ)
  | [] => .panic
  | t0 :: _ =>
    match fonts.find? (fun f => f.name = t0.font) with
    | none => .err .fontError
    | some sizingFont =>
      match runSizeLoop
          (fun s => some (heightCheck sizingFont noWrapLines.length textHeight s))
          minS maxS with
      | .panic => .panic
      | .err e => .err e
      | .ok s1 =>
        if s1 < minS then .err .fitError else .ok (noWrapLines, s1)

/-- The mode branch of `fit_glyphs` (src/lib.rs:184-269): in wrap mode, one
line holding all runs and the starting size `max_size`; in no-wrap mode,
the hard-break lines and the pre-sized starting size. -/
def fitBranch (fonts : List FontDef) (noWrapLines : List (List TextRun))
    (textHeight : ℕ) (b : Block) : RunResult (List (List TextRun) × ℚ) :=
  if b.wrap then .ok ([b.text], b.maxSize)
  else fitBranchNoWrap fonts noWrapLines textHeight b.minSize b.maxSize b.text

/-- The tail of `fit_glyphs` after the mode branch (src/lib.rs:271-382):
the per-run font check, the per-line fitting loops, the final `min_size`
check, and the `line_sections[0][0]` indexing of the re-render phase
(src/lib.rs:354), which panics when the line list or the first line is
empty. -/
def fitGlyphsRest (fonts : List FontDef) (glyphsAt : ℕ → ℚ → List SectionGlyph)
    (wrap : Bool) (minSize : ℚ) (rectBottom : ℕ) (lines : List (List TextRun))
    (fontSize0 : ℚ) : RunResult ℚ :=
  if anyFontMissing fonts lines then .err .fontError
  else
    match fitLines glyphsAt wrap minSize rectBottom lines 0 fontSize0 with
    | .panic => .panic
    | .err e => .err e
    | .ok finalSize =>
      if finalSize < minSize then .err .fitError
      else
        match lines with
        | [] => .panic
        | line0 :: _ =>
          match line0 with
          | [] => .panic
          | _ :: _ => .ok finalSize

/-- `fit_glyphs` (src/lib.rs:170-382), modelling the chosen font size and the
error/panic behavior. Parameters for the external collaborators:
`glyphsAt i s` is `layout.calculate_glyphs` on line `i` at size `s`, and
`noWrapLines` is the hard-break segmentation the no-wrap path computes from
the external Unicode line breaker (src/lib.rs:207-246). The final re-render
phase (src/lib.rs:353-373) only recomputes glyph positions at the chosen
size; its `line_sections[0][0]` indexing panics are modelled, the glyph
list it returns is absorbed by the render abstraction downstream. -/
def fitGlyphs (fonts : List FontDef) (glyphsAt : ℕ → ℚ → List SectionGlyph)
    (noWrapLines : List (List TextRun)) (rect : Rect) (b : Block) : RunResult ℚ :=
  match sub32 rect.right rect.left with
  | .panic => .panic
  | .err e => .err e
  | .ok _textWidth =>
  match sub32 rect.bottom rect.top with
  | .panic => .panic
  | .err e => .err e
  | .ok textHeight =>
  match fitBranch fonts noWrapLines textHeight b with
  | .panic => .panic
  | .err e => .err e
  | .ok (lines, fontSize0) =>
    fitGlyphsRest fonts glyphsAt b.wrap b.minSize rect.bottom lines fontSize0

/-- An RGBA8 canvas: dimensions plus a pixel function (row-major RGBA8
buffer in the source). -/
structure Canvas where
  width : ℕ
  height : ℕ
  pix : ℕ → ℕ → Pixel

/-- `options.background.to_rgba8()` (src/lib.rs:424): a fresh RGBA8 copy of
the caller's image; the caller's buffer is never written. -/
def toRgba8 (c : Canvas) : Canvas :=
  ⟨c.width, c.height, fun x y => c.pix x y⟩

/-- `DEFAULT_SHADOW_COLOR` (src/lib.rs:428). -/
def defaultShadowColor : Pixel := ⟨0, 0, 0, 25⟩

/-- `TRANSPARENT` (src/lib.rs:429). -/
def transparentPixel : Pixel := ⟨0, 0, 0, 0⟩

/-- The block's decoration layer (src/lib.rs:507-515): transparent outside
the rect, the border color in the border-width ring, the background color
in the interior. -/
def decorationLayer (w h : ℕ) (rect : Rect) (bl br bt bb : ℕ)
    (borderPixel bgPixel : Pixel) : Canvas :=
  ⟨w, h, fun x y =>
    if x < rect.left ∨ rect.right < x ∨ y < rect.top ∨ rect.bottom < y then transparentPixel
    else if x < bl ∨ br < x ∨ y < bt ∨ bb < y then borderPixel
    else bgPixel⟩

/-- The external collaborators `overlay_text` relies on, as parameters of
the model: per-block glyph layout and hard-break line segmentation (the
`glyph_brush_layout` crate), and the pixel effects of the drawing phase
(glyph rasterization plus the `image` crate's blur and overlay, src/lib.rs
472-494 and 536-609). The drawing abstractions return only a pixel
function: the source mutates the canvas in place, so dimensions are
preserved. -/
structure Externals where
  glyphsAt : Block → Rect → ℕ → ℚ → List SectionGlyph
  noWrapLines : Block → List (List TextRun)
  borderShadow : Canvas → Block → Shadow → Pixel → ℕ → ℕ → Pixel
  renderBlock : Canvas → Canvas → Block → Rect → ℚ → ℕ → ℕ → Pixel

/-- Processing of one block inside `overlay_text`'s loop (src/lib.rs:431-609):
geometry validation, color and border resolution, the border-shadow layer,
the decoration layer, shrinking the working rect by border width and
padding, and the `fit_glyphs` call. The drawing phase (src/lib.rs:536-609)
is `ext.renderBlock` applied to the canvas and decoration layer. -/
def processBlock (ext : Externals) (fonts : List FontDef) (w h : ℕ)
    (pix : ℕ → ℕ → Pixel) (b : Block) : RunResult (ℕ → ℕ → Pixel) :=
  let rect := b.rect
  if w < rect.left ∨ w < rect.right ∨ h < rect.top ∨ h < rect.bottom then .err .geomError
  else if rect.right ≤ rect.left ∨ rect.bottom < rect.top then .err .geomError
  else
    let shadowColorR : RunResult Pixel :=
      match b.shadow.bind (fun s => s.color) with
      | none => .ok defaultShadowColor
      | some c => c.toPixel
    match shadowColorR with
    | .panic => .panic
    | .err e => .err e
    | .ok _shadowColor =>
    let borderPixelR : RunResult Pixel :=
      match b.border with
      | none => .ok ⟨0, 0, 0, 255⟩
      | some br => br.color.toPixel
    match borderPixelR with
    | .panic => .panic
    | .err e => .err e
    | .ok borderPixel =>
    let borderWidth := (b.border.map (fun br => br.width)).getD 0
    let pixR : RunResult (ℕ → ℕ → Pixel) :=
      match b.border.bind (fun br => br.shadow) with
      | none => .ok pix
      | some s =>
        let shadowBgR : RunResult Pixel :=
          match s.color with
          | none => .ok defaultShadowColor
          | some c => c.toPixel
        match shadowBgR with
        | .panic => .panic
        | .err e => .err e
        | .ok sbg =>
          match add32 rect.top s.y, add32 rect.bottom s.y,
              add32 rect.left s.x, add32 rect.right s.x with
          | .ok _, .ok _, .ok _, .ok _ =>
            match sub32 rect.right rect.left, sub32 rect.bottom rect.top with
            | .ok w1, .ok h1 =>
              match add32 w1 1, add32 h1 1 with
              | .ok _, .ok _ => .ok (ext.borderShadow ⟨w, h, pix⟩ b s sbg)
              | _, _ => .panic
            | _, _ => .panic
          | _, _, _, _ => .panic
    match pixR with
    | .panic => .panic
    | .err e => .err e
    | .ok pix1 =>
    let bgPixelR : RunResult Pixel :=
      match b.background with
      | none => .ok ⟨0, 0, 0, 0⟩
      | some c => c.toPixel
    match bgPixelR with
    | .panic => .panic
    | .err e => .err e
    | .ok bgPixel =>
    match add32 rect.left borderWidth, sub32 rect.right borderWidth,
        add32 rect.top borderWidth, sub32 rect.bottom borderWidth with
    | .ok bl, .ok br2, .ok bt, .ok bb =>
      let textImage := decorationLayer w h rect bl br2 bt bb borderPixel bgPixel
      let rect1R : RunResult Rect :=
        match b.border with
        | none => .ok rect
        | some bd =>
          match add32 rect.left bd.width, sub32 rect.right bd.width,
              add32 rect.top bd.width, sub32 rect.bottom bd.width with
          | .ok l, .ok r, .ok t, .ok bo => .ok ⟨t, bo, l, r⟩
          | _, _, _, _ => .panic
      match rect1R with
      | .panic => .panic
      | .err e => .err e
      | .ok rect1 =>
        let rect2R : RunResult Rect :=
          match b.padding with
          | none => .ok rect1
          | some p =>
            match add32 rect1.left p.left, sub32 rect1.right p.right,
                add32 rect1.top p.top, sub32 rect1.bottom p.bottom with
            | .ok l, .ok r, .ok t, .ok bo => .ok ⟨t, bo, l, r⟩
            | _, _, _, _ => .panic
        match rect2R with
        | .panic => .panic
        | .err e => .err e
        | .ok rect2 =>
          match fitGlyphs fonts (ext.glyphsAt b rect2) (ext.noWrapLines b) rect2 b with
          | .panic => .panic
          | .err e => .err e
          | .ok size => .ok (ext.renderBlock ⟨w, h, pix1⟩ textImage b rect2 size)
    | _, _, _, _ => .panic

/-- The block loop of `overlay_text` (src/lib.rs:431): process blocks in
caller order, threading the canvas pixels (the source mutates `bg` in
place, so the dimensions never change); the first error or panic aborts. -/
def processBlocks (ext : Externals) (fonts : List FontDef) (w h : ℕ) :
    (ℕ → ℕ → Pixel) → List Block → RunResult (ℕ → ℕ → Pixel)
  | pix, [] => .ok pix
  | pix, b :: rest =>
    match processBlock ext fonts w h pix b with
    | .panic => .panic
    | .err e => .err e
    | .ok pix2 => processBlocks ext fonts w h pix2 rest

/-- `OverlayOptions` (src/lib.rs:49-54). -/
structure OverlayOptions where
  background : Canvas
  blocks : List Block
  fonts : List FontDef

/-- `overlay_text` (src/lib.rs:423-613). -/
def overlay_text (ext : Externals) (o : OverlayOptions) : RunResult Canvas :=
  match processBlocks ext o.fonts o.background.width o.background.height
      (toRgba8 o.background).pix o.blocks with
  | .panic => .panic
  | .err e => .err e
  | .ok pix => .ok ⟨o.background.width, o.background.height, pix⟩

/-- Pure version of the fitting loop, for checks that cannot panic:
returns the final `font_size`. -/
def sizeLoopB (fits : ℚ → Bool) (minS : ℚ) : ℚ → ℕ → ℚ
  | s, 0 => s
  | s, fuel + 1 =>
    if minS ≤ s then (if fits s then s else sizeLoopB fits minS (s - 4) fuel) else s

/-- The fitting loop with its exact fuel. -/
def loopB (fits : ℚ → Bool) (minS s : ℚ) : ℚ :=
  sizeLoopB fits minS s (fuelFor minS s)

/-- Modelled from the spec: the font-size search as the spec words it —
start at the given size, test the fit predicate, decrement by 4pt on
failure, and stop (with `none`) once the size falls below `min_size`;
the result is the first size satisfying the predicate. -/
def firstFitSize (fits : ℚ → Bool) (minS : ℚ) : ℚ → ℕ → Option ℚ
  | _, 0 => none
  | s, fuel + 1 =>
    if minS ≤ s then (if fits s then some s else firstFitSize fits minS (s - 4) fuel)
    else none

/-- Modelled from the spec: "Starting at `max_size`, decrement by 4pt …;
first size satisfying [the fit predicate] is chosen. If no size ≥
`min_size` satisfies this, fail." -/
def specSearch (fits : ℚ → Bool) (maxS minS : ℚ) : Option ℚ :=
  firstFitSize fits minS maxS (fuelFor minS maxS)

/-- Byte length of a line's last section (`sections.last().unwrap().text.len()`). -/
def lastLenOf (L : List TextRun) : ℕ :=
  ((L.getLast?).map (fun t => t.len)).getD 0

/-- The wrap-mode fit predicate of one candidate size as a Boolean
(the contents of src/lib.rs:315-328 when the glyph list is non-empty). -/
def wrapFits (glyphsAt : ℕ → ℚ → List SectionGlyph) (L : List TextRun) (rectBottom : ℕ)
    (s : ℚ) : Bool :=
  match (glyphsAt 0 s).getLast? with
  | none => false
  | some g =>
    decide (g.sectionIndex = L.length - 1 ∧ g.byteIndex = lastLenOf L - 1 ∧
      g.y < (rectBottom : ℚ))

/-- The no-wrap per-line render check at one size (src/lib.rs:330-338):
the layout emits exactly as many glyphs as the line has source bytes. -/
def lineOK (glyphsAt : ℕ → ℚ → List SectionGlyph) (L : List TextRun) (i : ℕ) (s : ℚ) : Bool :=
  decide ((glyphsAt i s).length = (L.map (fun t => t.len)).sum)

/-- All lines (empty ones skipped, as the source skips them) pass the
no-wrap render check at size `s`. -/
def linesConj (glyphsAt : ℕ → ℚ → List SectionGlyph) :
    List (List TextRun) → ℕ → ℚ → Bool
  | [], _, _ => true
  | L :: rest, i, s =>
    (if L.isEmpty then true else lineOK glyphsAt L i s) && linesConj glyphsAt rest (i + 1) s

/-- Modelled from the spec, with the height comparison corrected to the
strict form the code implements: a candidate size is accepted when
`line_height(size) * number_of_lines` is strictly below the rect height
(the code keeps decrementing while `>=` the height) and every line's
full-render check passes. -/
def noWrapFitsStrict (sf : FontDef) (glyphsAt : ℕ → ℚ → List SectionGlyph)
    (nwl : List (List TextRun)) (textHeight : ℕ) (s : ℚ) : Bool :=
  heightCheck sf nwl.length textHeight s && linesConj glyphsAt nwl 0 s

/-- Modelled from the spec's words for the claim as stated: total height
`line_height(size) * number_of_lines` at most the rect height, and every
line's full-render check passes. -/
def noWrapFitsLE (sf : FontDef) (glyphsAt : ℕ → ℚ → List SectionGlyph)
    (nwl : List (List TextRun)) (textHeight : ℕ) (s : ℚ) : Bool :=
  decide (ptSizeToPxScale sf s 1 * (nwl.length : ℚ) ≤ (textHeight : ℚ)) &&
    linesConj glyphsAt nwl 0 s

/-- Modelled from the spec: the per-color-channel value of standard "over"
compositing of `src` onto the destination channel value `dest` at
coverage `c`. -/
def specOverChannel (dest src : ℕ) (c : ℚ) : ℕ :=
  toU8 ((dest : ℚ) * (1 - c) + (src : ℚ) * c)

/-- The geometry-validation predicate of `overlay_text` (src/lib.rs:433-442):
a rect coordinate exceeds the image bounds, or the rect is degenerate. -/
def rectInvalid (r : Rect) (w h : ℕ) : Prop :=
  (w < r.left ∨ w < r.right ∨ h < r.top ∨ h < r.bottom) ∨
    (r.right ≤ r.left ∨ r.bottom < r.top)

instance (r : Rect) (w h : ℕ) : Decidable (rectInvalid r w h) := by
  unfold rectInvalid; infer_instance

/-- Modelled from the spec: a rect lies fully outside the image bounds when
no pixel of the (inclusive) rect is a pixel of the `w × h` image. -/
def rectFullyOutside (r : Rect) (w h : ℕ) : Prop :=
  ∀ x y : ℕ, r.left ≤ x → x ≤ r.right → r.top ≤ y → y ≤ r.bottom → ¬(x < w ∧ y < h)

/-- A test font whose metrics make `pt_size_to_px_scale` return `4/3 * size`. -/
def fontF : FontDef := ⟨"f", 1, 1⟩

/-- A two-byte run in font `f`. -/
def runF2 : TextRun := ⟨"f", 2, none⟩

/-- A zero-byte run in font `f`. -/
def runF0 : TextRun := ⟨"f", 0, none⟩

/-- 50 × 100 rect at the origin. -/
def rect50 : Rect := ⟨0, 100, 0, 50⟩

/-- A baseline block: wrap mode, sizes 4..12, one two-byte run. -/
def baseBlock : Block :=
  ⟨4, 12, [runF2], rect50, none, none, none, none, true, .left, .top, .rgb 0 0 0⟩

/-- Glyph data that fits `baseBlock` at every size: the single glyph is the
last byte of the last section and sits above the rect bottom. -/
def glyphsFitAt : ℕ → ℚ → List SectionGlyph := fun _ _ => [⟨50, 0, 1⟩]

/-- A 16px-high, 100px-wide rect for the no-wrap height-search instance. -/
def rect16 : Rect := ⟨0, 16, 0, 100⟩

/-- No-wrap block over `rect16`, sizes 4..12, one two-byte run. -/
def noWrapBlock : Block :=
  ⟨4, 12, [runF2], rect16, none, none, none, none, false, .left, .top, .rgb 0 0 0⟩

/-- The single hard-break line of `noWrapBlock`. -/
def nwLines1 : List (List TextRun) := [[runF2]]

/-- Glyph data rendering both bytes of `runF2` at every size. -/
def glyphsTwoAt : ℕ → ℚ → List SectionGlyph := fun _ _ => [⟨10, 0, 0⟩, ⟨10, 0, 1⟩]

/-- A plain white 100 × 100 canvas. -/
def canvas100 : Canvas := ⟨100, 100, fun _ _ => ⟨255, 255, 255, 255⟩⟩

/-- Externals whose layout always yields one glyph that is not the last byte
of its section (so nothing ever fits), and whose drawing is a no-op. -/
def extLow : Externals :=
  ⟨fun _ _ _ _ => [⟨150, 0, 0⟩], fun b => [b.text],
   fun c _ _ _ => c.pix, fun c _ _ _ _ => c.pix⟩

/-- Externals whose layout yields no glyphs at all (as the wrap layout does
once the vertical bounds cannot hold a single line), drawing a no-op. -/
def extEmptyGlyphs : Externals :=
  ⟨fun _ _ _ _ => [], fun b => [b.text], fun c _ _ _ => c.pix, fun c _ _ _ _ => c.pix⟩

/-- The degenerate boundary rect `top = bottom = 100` in a 100 × 100 image:
every pixel row it covers lies outside the image, yet no coordinate
exceeds the bounds, so the source's validation lets it through. -/
def rectEdge : Rect := ⟨100, 100, 0, 50⟩

/-- `baseBlock` moved to `rectEdge`. -/
def blockEdge : Block :=
  ⟨4, 12, [runF2], rectEdge, none, none, none, none, true, .left, .top, .rgb 0 0 0⟩

/-- One-block options for the boundary-rect run. -/
def opts5 : OverlayOptions := ⟨canvas100, [blockEdge], [fontF]⟩

/-- A degenerate rect with `left = right`, failing validation. -/
def rectDegenerate : Rect := ⟨0, 10, 5, 5⟩

/-- `baseBlock` moved to `rectDegenerate`. -/
def blockDegenerate : Block :=
  ⟨4, 12, [runF2], rectDegenerate, none, none, none, none, true, .left, .top, .rgb 0 0 0⟩

/-- One-block options for the degenerate-rect run. -/
def optsDegenerate : OverlayOptions := ⟨canvas100, [blockDegenerate], [fontF]⟩

/-- A zero-height rect (`top = bottom = 20`) inside the image: passes
validation, but no line of text fits, so the wrap layout emits no glyphs. -/
def rectZeroH : Rect := ⟨20, 20, 0, 50⟩

/-- `baseBlock` moved to `rectZeroH`. -/
def blockZeroH : Block :=
  ⟨4, 12, [runF2], rectZeroH, none, none, none, none, true, .left, .top, .rgb 0 0 0⟩

/-- One-block options for the zero-height-rect run. -/
def opts9 : OverlayOptions := ⟨canvas100, [blockZeroH], [fontF]⟩

/-- `baseBlock` with its only run empty (the claim's own example). -/
def blockEmptyRun : Block :=
  ⟨4, 12, [runF0], rect50, none, none, none, none, true, .left, .top, .rgb 0 0 0⟩

/-- One-block options for the empty-run block. -/
def opts9b : OverlayOptions := ⟨canvas100, [blockEmptyRun], [fontF]⟩

/-- A 10 × 10 rect at the origin. -/
def rect10 : Rect := ⟨0, 10, 0, 10⟩

/-- A 20px border, wider than `rect10`'s extent. -/
def borderWide : BlockBorder := ⟨20, .rgb 0 0 0, none⟩

/-- Valid block whose border width exceeds its rect's extent. -/
def blockBorderWide : Block :=
  ⟨4, 12, [runF2], rect10, none, none, some borderWide, none, true, .left, .top, .rgb 0 0 0⟩

/-- Asymmetric padding: 8 left + 3 right on a 10px-wide rect leaves
`left = 8 > right = 7` with no individual subtraction underflowing. -/
def padBad : Rect := ⟨0, 0, 8, 3⟩

/-- Valid block whose padding inverts the shrunken rect. -/
def blockPadBad : Block :=
  ⟨4, 12, [runF2], rect10, none, none, none, some padBad, true, .left, .top, .rgb 0 0 0⟩

/-- One-block options for the wide-border block. -/
def opts10a : OverlayOptions := ⟨canvas100, [blockBorderWide], [fontF]⟩

/-- One-block options for the bad-padding block. -/
def opts10b : OverlayOptions := ⟨canvas100, [blockPadBad], [fontF]⟩

lemma fuelFor_of_lt {m s : ℚ} (h : s < m) : fuelFor m s = 0 := by
  simp [fuelFor, h]

lemma fuelFor_of_le {m s : ℚ} (h : m ≤ s) : fuelFor m s = (⌊(s - m) / 4⌋).toNat + 1 := by
  simp [fuelFor, not_lt.mpr h]

lemma fuelFor_sub_lt {m s : ℚ} (h : m ≤ s) : fuelFor m (s - 4) < fuelFor m s := by
  rw [fuelFor_of_le h]
  by_cases hc : s - 4 < m
  · rw [fuelFor_of_lt hc]
    exact Nat.succ_pos _
  · rw [fuelFor_of_le (not_lt.mp hc)]
    have h4 : (4 : ℚ) ≤ s - m := by linarith [not_lt.mp hc]
    have hone : (1 : ℤ) ≤ ⌊(s - m) / 4⌋ := by
      rw [Int.le_floor]
      have : (1 : ℚ) ≤ (s - m) / 4 := by
        rw [le_div_iff₀ (by norm_num : (0 : ℚ) < 4)]
        linarith
      exact_mod_cast this
    have heq : (s - 4 - m) / 4 = (s - m) / 4 - 1 := by ring
    rw [heq, Int.floor_sub_one]
    omega

lemma fuelFor_pos {m s : ℚ} (h : m ≤ s) : 1 ≤ fuelFor m s := by
  rw [fuelFor_of_le h]; omega

lemma sizeLoopB_fuel_eq (f : ℚ → Bool) (m : ℚ) :
    ∀ (n1 : ℕ) (n2 : ℕ) (s : ℚ), fuelFor m s ≤ n1 → fuelFor m s ≤ n2 →
      sizeLoopB f m s n1 = sizeLoopB f m s n2 := by
  intro n1
  induction n1 with
  | zero =>
    intro n2 s h1 h2
    have hs : s < m := by
      by_contra hc
      have := fuelFor_pos (not_lt.mp hc) (m := m) (s := s)
      omega
    cases n2 with
    | zero => rfl
    | succ n2 => simp [sizeLoopB, not_le.mpr hs]
  | succ n1 ih =>
    intro n2 s h1 h2
    by_cases hs : m ≤ s
    · cases n2 with
      | zero =>
        have := fuelFor_pos hs (m := m) (s := s)
        omega
      | succ n2 =>
        simp only [sizeLoopB, hs, if_true]
        by_cases hf : f s
        · simp [hf]
        · simp only [hf, if_false]
          have hlt := fuelFor_sub_lt hs (m := m) (s := s)
          exact ih n2 (s - 4) (by omega) (by omega)
    · cases n2 with
      | zero =>
        simp [sizeLoopB, hs]
      | succ n2 => simp [sizeLoopB, hs]

lemma loopB_eq (f : ℚ → Bool) (m s : ℚ) :
    loopB f m s = if m ≤ s then (if f s then s else loopB f m (s - 4)) else s := by
  by_cases hs : m ≤ s
  · rw [if_pos hs]
    unfold loopB
    rw [fuelFor_of_le hs]
    simp only [sizeLoopB, hs, if_true]
    by_cases hf : f s
    · simp [hf]
    · simp only [hf, if_false]
      have hlt := fuelFor_sub_lt hs (m := m) (s := s)
      rw [fuelFor_of_le hs] at hlt
      exact sizeLoopB_fuel_eq f m _ _ (s - 4) (by omega) le_rfl
  · rw [if_neg hs]
    unfold loopB
    rw [fuelFor_of_lt (not_le.mp hs)]
    rfl

lemma sizeLoop_some_eq (f : ℚ → Bool) (m : ℚ) :
    ∀ (n : ℕ) (s : ℚ), sizeLoop (fun t => some (f t)) m s n = .ok (sizeLoopB f m s n) := by
  intro n
  induction n with
  | zero => intro s; rfl
  | succ n ih =>
    intro s
    simp only [sizeLoop, sizeLoopB]
    by_cases hs : m ≤ s
    · simp only [hs, if_true]
      by_cases hf : f s
      · simp [hf]
      · simp [hf, ih]
    · simp [hs]

lemma runSizeLoop_some (f : ℚ → Bool) (m s : ℚ) :
    runSizeLoop (fun t => some (f t)) m s = .ok (loopB f m s) := by
  unfold runSizeLoop loopB
  exact sizeLoop_some_eq f m _ s

lemma loopB_ladder (f : ℚ → Bool) (m : ℚ) :
    ∀ (n : ℕ) (s : ℚ), fuelFor m s ≤ n → ∃ k : ℕ, loopB f m s = s - 4 * k := by
  intro n
  induction n with
  | zero =>
    intro s h
    have hs : s < m := by
      by_contra hc
      have := fuelFor_pos (not_lt.mp hc) (m := m) (s := s)
      omega
    refine ⟨0, ?_⟩
    rw [loopB_eq, if_neg (not_le.mpr hs)]
    push_cast; ring
  | succ n ih =>
    intro s h
    rw [loopB_eq]
    by_cases hs : m ≤ s
    · rw [if_pos hs]
      by_cases hf : f s
      · exact ⟨0, by rw [if_pos hf]; push_cast; ring⟩
      · rw [if_neg hf]
        have hlt := fuelFor_sub_lt hs (m := m) (s := s)
        obtain ⟨k, hk⟩ := ih (s - 4) (by omega)
        exact ⟨k + 1, by rw [hk]; push_cast; ring⟩
    · exact ⟨0, by rw [if_neg hs]; push_cast; ring⟩

lemma loopB_result (f : ℚ → Bool) (m : ℚ) :
    ∀ (n : ℕ) (s : ℚ), fuelFor m s ≤ n →
      (m ≤ loopB f m s ∧ f (loopB f m s) = true) ∨ loopB f m s < m := by
  intro n
  induction n with
  | zero =>
    intro s h
    have hs : s < m := by
      by_contra hc
      have := fuelFor_pos (not_lt.mp hc) (m := m) (s := s)
      omega
    right
    rw [loopB_eq, if_neg (not_le.mpr hs)]
    exact hs
  | succ n ih =>
    intro s h
    rw [loopB_eq]
    by_cases hs : m ≤ s
    · rw [if_pos hs]
      by_cases hf : f s
      · left
        rw [if_pos hf]
        exact ⟨hs, hf⟩
      · rw [if_neg hf]
        have hlt := fuelFor_sub_lt hs (m := m) (s := s)
        exact ih (s - 4) (by omega)
    · right
      rw [if_neg hs]
      exact not_le.mp hs

lemma search_link (f : ℚ → Bool) (m : ℚ) :
    ∀ (n : ℕ) (s : ℚ), fuelFor m s ≤ n →
      firstFitSize f m s n =
        if m ≤ loopB f m s then some (loopB f m s) else none := by
  intro n
  induction n with
  | zero =>
    intro s h
    have hs : s < m := by
      by_contra hc
      have := fuelFor_pos (not_lt.mp hc) (m := m) (s := s)
      omega
    have hl : loopB f m s = s := by rw [loopB_eq, if_neg (not_le.mpr hs)]
    rw [hl]
    simp [firstFitSize, not_le.mpr hs]
  | succ n ih =>
    intro s h
    by_cases hs : m ≤ s
    · by_cases hf : f s
      · have hl : loopB f m s = s := by rw [loopB_eq, if_pos hs, if_pos hf]
        rw [hl]
        simp [firstFitSize, hs, hf]
      · have hl : loopB f m s = loopB f m (s - 4) := by
          rw [loopB_eq, if_pos hs, if_neg hf]
        have hlt := fuelFor_sub_lt hs (m := m) (s := s)
        rw [hl]
        simp only [firstFitSize, hs, if_true, hf, if_false]
        exact ih (s - 4) (by omega)
    · have hl : loopB f m s = s := by rw [loopB_eq, if_neg hs]
      rw [hl]
      simp [firstFitSize, hs]

lemma specSearch_eq (f : ℚ → Bool) (maxS minS : ℚ) :
    specSearch f maxS minS =
      if minS ≤ loopB f minS maxS then some (loopB f minS maxS) else none :=
  search_link f minS (fuelFor minS maxS) maxS le_rfl

lemma loopB_mono_fail (f g : ℚ → Bool) (m : ℚ) (himp : ∀ t, g t = true → f t = true) :
    ∀ (n : ℕ) (s : ℚ), fuelFor m s ≤ n → loopB f m s < m → loopB g m s < m := by
  intro n
  induction n with
  | zero =>
    intro s h _
    have hs : s < m := by
      by_contra hc
      have := fuelFor_pos (not_lt.mp hc) (m := m) (s := s)
      omega
    rw [loopB_eq, if_neg (not_le.mpr hs)]
    exact hs
  | succ n ih =>
    intro s h hfail
    by_cases hs : m ≤ s
    · have hf : f s = false := by
        by_contra hc
        have hf : f s = true := by
          cases hfs : f s
          · exact absurd hfs hc
          · rfl
        rw [loopB_eq, if_pos hs, if_pos hf] at hfail
        exact absurd hs (not_le.mpr hfail)
      have hg : g s = false := by
        cases hgs : g s
        · rfl
        · exact absurd (himp s hgs) (by simp [hf])
      rw [loopB_eq, if_pos hs, if_neg (by simp [hg])]
      rw [loopB_eq, if_pos hs, if_neg (by simp [hf])] at hfail
      have hlt := fuelFor_sub_lt hs (m := m) (s := s)
      exact ih (s - 4) (by omega) hfail
    · rw [loopB_eq, if_neg hs]
      exact not_le.mp hs

lemma loopB_seq (f g : ℚ → Bool) (m : ℚ)
    (hf : ∀ s t : ℚ, t ≤ s → f s = true → f t = true) :
    ∀ (n : ℕ) (s : ℚ), fuelFor m s ≤ n →
      loopB g m (loopB f m s) = loopB (fun t => f t && g t) m s := by
  intro n
  induction n with
  | zero =>
    intro s h
    have hs : s < m := by
      by_contra hc
      have := fuelFor_pos (not_lt.mp hc) (m := m) (s := s)
      omega
    have hl : loopB f m s = s := by rw [loopB_eq, if_neg (not_le.mpr hs)]
    rw [hl, loopB_eq, if_neg (not_le.mpr hs)]
    rw [loopB_eq (fun t => f t && g t), if_neg (not_le.mpr hs)]
  | succ n ih =>
    intro s h
    by_cases hs : m ≤ s
    · have hlt := fuelFor_sub_lt hs (m := m) (s := s)
      by_cases hfs : f s
      · by_cases hgs : g s
        · have hl : loopB f m s = s := by rw [loopB_eq, if_pos hs, if_pos hfs]
          rw [hl]
          rw [loopB_eq g, if_pos hs, if_pos hgs]
          rw [loopB_eq (fun t => f t && g t), if_pos hs]
          simp [hfs, hgs]
        · have hl : loopB f m s = s := by rw [loopB_eq, if_pos hs, if_pos hfs]
          rw [hl]
          rw [loopB_eq g, if_pos hs, if_neg hgs]
          rw [loopB_eq (fun t => f t && g t), if_pos hs,
            if_neg (by simp [Bool.not_eq_true] at hgs ⊢; simp [hgs])]
          have hf4 : loopB f m (s - 4) = s - 4 := by
            rw [loopB_eq]
            by_cases h4 : m ≤ s - 4
            · rw [if_pos h4, if_pos (hf s (s - 4) (by linarith) hfs)]
            · rw [if_neg h4]
          nth_rewrite 1 [← hf4]
          exact ih (s - 4) (by omega)
      · have hl : loopB f m s = loopB f m (s - 4) := by
          rw [loopB_eq, if_pos hs, if_neg hfs]
        rw [hl]
        rw [loopB_eq (fun t => f t && g t), if_pos hs,
          if_neg (by simp [Bool.not_eq_true] at hfs ⊢; simp [hfs])]
        exact ih (s - 4) (by omega)
    · have hl : loopB f m s = s := by rw [loopB_eq, if_neg hs]
      rw [hl, loopB_eq g, if_neg hs]
      rw [loopB_eq (fun t => f t && g t), if_neg hs]

lemma loopB_seq_all (f g : ℚ → Bool) (m : ℚ)
    (hf : ∀ s t : ℚ, t ≤ s → f s = true → f t = true) (s : ℚ) :
    loopB g m (loopB f m s) = loopB (fun t => f t && g t) m s :=
  loopB_seq f g m hf (fuelFor m s) s le_rfl

lemma loopB_ladder_all (f : ℚ → Bool) (m s : ℚ) : ∃ k : ℕ, loopB f m s = s - 4 * k :=
  loopB_ladder f m (fuelFor m s) s le_rfl

lemma loopB_result_all (f : ℚ → Bool) (m s : ℚ) :
    (m ≤ loopB f m s ∧ f (loopB f m s) = true) ∨ loopB f m s < m :=
  loopB_result f m (fuelFor m s) s le_rfl

lemma loopB_mono_fail_all (f g : ℚ → Bool) (m : ℚ)
    (himp : ∀ t, g t = true → f t = true) (s : ℚ) (h : loopB f m s < m) :
    loopB g m s < m :=
  loopB_mono_fail f g m himp (fuelFor m s) s le_rfl h

lemma loopB_const_true (m s : ℚ) : loopB (fun _ => true) m s = s := by
  rw [loopB_eq]
  by_cases hs : m ≤ s <;> simp [hs]

lemma lastLenOf_def (L : List TextRun) :
    ((L.getLast?).map (fun t => t.len)).getD 0 = lastLenOf L := rfl

lemma sub32_lastLen {L : List TextRun} (hlast : 1 ≤ lastLenOf L) :
    sub32 (((L.getLast?).map (fun t => t.len)).getD 0) 1 = .ok (lastLenOf L - 1) := by
  rw [lastLenOf_def]
  unfold sub32
  rw [if_pos hlast]

lemma lineCheck_wrap_eq (glyphsAt : ℕ → ℚ → List SectionGlyph) (L : List TextRun)
    (rb : ℕ) (hg : ∀ t : ℚ, glyphsAt 0 t ≠ []) :
    lineCheck glyphsAt true L 0 (lastLenOf L - 1) rb =
      fun t => some (wrapFits glyphsAt L rb t) := by
  funext t
  unfold lineCheck
  rw [if_pos rfl]
  unfold wrapLineCheck wrapFits
  cases hgl : (glyphsAt 0 t).getLast? with
  | none => exact absurd (List.getLast?_eq_none_iff.mp hgl) (hg t)
  | some g => rfl

lemma lineCheck_nowrap_eq (glyphsAt : ℕ → ℚ → List SectionGlyph) (L : List TextRun)
    (i lbi rb : ℕ) :
    lineCheck glyphsAt false L i lbi rb = fun t => some (lineOK glyphsAt L i t) := by
  funext t
  unfold lineCheck
  rw [if_neg (by simp)]
  rfl

lemma fitLines_wrap_single (glyphsAt : ℕ → ℚ → List SectionGlyph) (m : ℚ) (rb : ℕ)
    (L : List TextRun) (hL : L.isEmpty = false) (hlast : 1 ≤ lastLenOf L)
    (hg : ∀ t : ℚ, glyphsAt 0 t ≠ []) (s : ℚ) :
    fitLines glyphsAt true m rb [L] 0 s = .ok (loopB (wrapFits glyphsAt L rb) m s) := by
  simp only [fitLines, hL, Bool.false_eq_true, if_false, sub32_lastLen hlast]
  rw [lineCheck_wrap_eq glyphsAt L rb hg, runSizeLoop_some]

lemma fitLines_nowrap (glyphsAt : ℕ → ℚ → List SectionGlyph) (m : ℚ) (rb : ℕ)
    (hmono : ∀ (i : ℕ) (L : List TextRun) (s t : ℚ), t ≤ s →
      lineOK glyphsAt L i s = true → lineOK glyphsAt L i t = true) :
    ∀ (lines : List (List TextRun)) (i : ℕ) (s : ℚ),
      (∀ L ∈ lines, L.isEmpty = false → 1 ≤ lastLenOf L) →
      fitLines glyphsAt false m rb lines i s =
        .ok (loopB (fun t => linesConj glyphsAt lines i t) m s) := by
  intro lines
  induction lines with
  | nil =>
    intro i s _
    have hfn : (fun t => linesConj glyphsAt [] i t) = fun _ => true := rfl
    rw [hfn, loopB_const_true]
    rfl
  | cons L rest ih =>
    intro i s hlast
    by_cases hE : L.isEmpty = true
    · have hfn : (fun t => linesConj glyphsAt (L :: rest) i t) =
          fun t => linesConj glyphsAt rest (i + 1) t := by
        funext t
        simp [linesConj, hE]
      rw [hfn]
      simp only [fitLines, hE, if_true]
      exact ih (i + 1) s (fun M hm he => hlast M (List.mem_cons_of_mem _ hm) he)
    · have hEf : L.isEmpty = false := by
        cases hc : L.isEmpty
        · rfl
        · exact absurd hc hE
      have hlast1 : 1 ≤ lastLenOf L := hlast L (List.mem_cons_self _ _) hEf
      simp only [fitLines, hEf, Bool.false_eq_true, if_false, sub32_lastLen hlast1]
      rw [lineCheck_nowrap_eq glyphsAt L i (lastLenOf L - 1) rb, runSizeLoop_some]
      show fitLines glyphsAt false m rb rest (i + 1) (loopB (lineOK glyphsAt L i) m s) =
        RunResult.ok (loopB (fun t => linesConj glyphsAt (L :: rest) i t) m s)
      rw [ih (i + 1) (loopB (lineOK glyphsAt L i) m s)
        (fun M hm he => hlast M (List.mem_cons_of_mem _ hm) he)]
      rw [loopB_seq_all (lineOK glyphsAt L i) _ m (hmono i L)]
      have hfn : (fun t => lineOK glyphsAt L i t && linesConj glyphsAt rest (i + 1) t) =
          fun t => linesConj glyphsAt (L :: rest) i t := by
        funext t
        simp [linesConj, hEf]
      rw [hfn]

lemma sizeLoop_ok_ladder (check : ℚ → Option Bool) (m : ℚ) :
    ∀ (n : ℕ) (s s2 : ℚ), sizeLoop check m s n = .ok s2 → ∃ k : ℕ, s2 = s - 4 * k := by
  intro n
  induction n with
  | zero =>
    intro s s2 h
    injection h with h2
    exact ⟨0, by rw [← h2]; push_cast; ring⟩
  | succ n ih =>
    intro s s2 h
    unfold sizeLoop at h
    by_cases hs : m ≤ s
    · rw [if_pos hs] at h
      cases hc : check s with
      | none => rw [hc] at h; cases h
      | some b =>
        rw [hc] at h
        cases b with
        | true =>
          injection h with h2
          exact ⟨0, by rw [← h2]; push_cast; ring⟩
        | false =>
          obtain ⟨k, hk⟩ := ih (s - 4) s2 h
          exact ⟨k + 1, by rw [hk]; push_cast; ring⟩
    · rw [if_neg hs] at h
      injection h with h2
      exact ⟨0, by rw [← h2]; push_cast; ring⟩

lemma fitLines_ok_ladder (glyphsAt : ℕ → ℚ → List SectionGlyph) (wrap : Bool) (m : ℚ)
    (rb : ℕ) :
    ∀ (lines : List (List TextRun)) (i : ℕ) (s s2 : ℚ),
      fitLines glyphsAt wrap m rb lines i s = .ok s2 → ∃ k : ℕ, s2 = s - 4 * k := by
  intro lines
  induction lines with
  | nil =>
    intro i s s2 h
    injection h with h2
    exact ⟨0, by rw [← h2]; push_cast; ring⟩
  | cons L rest ih =>
    intro i s s2 h
    simp only [fitLines] at h
    by_cases hE : L.isEmpty = true
    · rw [if_pos hE] at h
      exact ih (i + 1) s s2 h
    · rw [if_neg hE] at h
      cases hsub : sub32 (((L.getLast?).map (fun t => t.len)).getD 0) 1 with
      | panic => rw [hsub] at h; cases h
      | err e => rw [hsub] at h; cases h
      | ok lbi =>
        rw [hsub] at h
        replace h : (match runSizeLoop (lineCheck glyphsAt wrap L i lbi rb) m s with
          | RunResult.panic => RunResult.panic
          | RunResult.err e => RunResult.err e
          | RunResult.ok s2 => fitLines glyphsAt wrap m rb rest (i + 1) s2) =
            RunResult.ok s2 := h
        cases hloop : runSizeLoop (lineCheck glyphsAt wrap L i lbi rb) m s with
        | panic => rw [hloop] at h; cases h
        | err e => rw [hloop] at h; cases h
        | ok s3 =>
          rw [hloop] at h
          obtain ⟨k1, hk1⟩ := sizeLoop_ok_ladder _ m (fuelFor m s) s s3 hloop
          obtain ⟨k2, hk2⟩ := ih (i + 1) s3 s2 h
          refine ⟨k2 + k1, ?_⟩
          rw [hk2, hk1]
          push_cast
          ring

lemma processBlock_invalid (ext : Externals) (fonts : List FontDef) (w h : ℕ)
    (pix : ℕ → ℕ → Pixel) (b : Block) (hinv : rectInvalid b.rect w h) :
    processBlock ext fonts w h pix b = .err .geomError := by
  unfold processBlock
  by_cases hA : w < b.rect.left ∨ w < b.rect.right ∨ h < b.rect.top ∨ h < b.rect.bottom
  · rw [if_pos hA]
  · have hB : b.rect.right ≤ b.rect.left ∨ b.rect.bottom < b.rect.top := by
      rcases hinv with h1 | h2
      · exact absurd h1 hA
      · exact h2
    rw [if_neg hA, if_pos hB]

lemma processBlocks_append (ext : Externals) (fonts : List FontDef) (w h : ℕ) :
    ∀ (l1 l2 : List Block) (pix : ℕ → ℕ → Pixel),
      processBlocks ext fonts w h pix (l1 ++ l2) =
        match processBlocks ext fonts w h pix l1 with
        | .panic => .panic
        | .err e => .err e
        | .ok pix2 => processBlocks ext fonts w h pix2 l2 := by
  intro l1
  induction l1 with
  | nil => intro l2 pix; rfl
  | cons b rest ih =>
    intro l2 pix
    simp only [List.cons_append, processBlocks]
    cases hb : processBlock ext fonts w h pix b with
    | panic => rfl
    | err e => rfl
    | ok pix1 => exact ih l2 pix1

lemma sub32_ok {a b : ℕ} (h : b ≤ a) : sub32 a b = .ok (a - b) := by
  unfold sub32
  rw [if_pos h]

lemma fitGlyphs_eval (fonts : List FontDef) (glyphsAt : ℕ → ℚ → List SectionGlyph)
    (nwl : List (List TextRun)) (rect : Rect) (b : Block)
    (hrl : rect.left ≤ rect.right) (hrt : rect.top ≤ rect.bottom) :
    fitGlyphs fonts glyphsAt nwl rect b =
      match fitBranch fonts nwl (rect.bottom - rect.top) b with
      | .panic => .panic
      | .err e => .err e
      | .ok (lines, fontSize0) =>
        fitGlyphsRest fonts glyphsAt b.wrap b.minSize rect.bottom lines fontSize0 := by
  unfold fitGlyphs
  rw [sub32_ok hrl, sub32_ok hrt]

lemma fitBranch_wrap (fonts : List FontDef) (nwl : List (List TextRun)) (th : ℕ)
    (b : Block) (hw : b.wrap = true) :
    fitBranch fonts nwl th b = .ok ([b.text], b.maxSize) := by
  unfold fitBranch
  rw [hw, if_pos rfl]

lemma fitBranch_nowrap (fonts : List FontDef) (nwl : List (List TextRun)) (th : ℕ)
    (b : Block) (t0 : TextRun) (ts : List TextRun) (sf : FontDef)
    (hw : b.wrap = false) (htext : b.text = t0 :: ts)
    (hfind : fonts.find? (fun f => f.name = t0.font) = some sf) :
    fitBranch fonts nwl th b =
      if loopB (heightCheck sf nwl.length th) b.minSize b.maxSize < b.minSize
      then .err .fitError
      else .ok (nwl, loopB (heightCheck sf nwl.length th) b.minSize b.maxSize) := by
  unfold fitBranch
  rw [hw, if_neg (by simp), htext]
  simp only [fitBranchNoWrap, hfind, runSizeLoop_some]

lemma fitBranch_ok_ladder {fonts : List FontDef} {nwl : List (List TextRun)} {th : ℕ}
    {b : Block} {lines : List (List TextRun)} {s0 : ℚ}
    (h : fitBranch fonts nwl th b = .ok (lines, s0)) :
    ∃ k : ℕ, s0 = b.maxSize - 4 * k := by
  unfold fitBranch at h
  by_cases hw : b.wrap = true
  · rw [hw, if_pos rfl] at h
    injection h with h2
    have hs0 : b.maxSize = s0 := congrArg Prod.snd h2
    refine ⟨0, ?_⟩
    rw [← hs0]
    push_cast
    ring
  · have hwf : b.wrap = false := by
      cases hc : b.wrap
      · rfl
      · exact absurd hc hw
    rw [hwf, if_neg (by simp)] at h
    cases htext : b.text with
    | nil => rw [htext] at h; cases h
    | cons t0 ts =>
      rw [htext] at h
      simp only [fitBranchNoWrap] at h
      cases hfind : fonts.find? (fun f => f.name = t0.font) with
      | none => rw [hfind] at h; cases h
      | some sf =>
        simp only [hfind, runSizeLoop_some] at h
        by_cases hlt : loopB (heightCheck sf nwl.length th) b.minSize b.maxSize < b.minSize
        · rw [if_pos hlt] at h; cases h
        · rw [if_neg hlt] at h
          injection h with h2
          have hs0 : loopB (heightCheck sf nwl.length th) b.minSize b.maxSize = s0 :=
            congrArg Prod.snd h2
          rw [← hs0]
          exact loopB_ladder_all _ _ _

lemma fitGlyphsRest_ok {fonts : List FontDef} {glyphsAt : ℕ → ℚ → List SectionGlyph}
    {wrap : Bool} {m : ℚ} {rb : ℕ} {lines : List (List TextRun)} {s0 s : ℚ}
    (h : fitGlyphsRest fonts glyphsAt wrap m rb lines s0 = .ok s) :
    m ≤ s ∧ ∃ k : ℕ, s = s0 - 4 * k := by
  unfold fitGlyphsRest at h
  by_cases hmiss : anyFontMissing fonts lines = true
  · rw [if_pos hmiss] at h; cases h
  · rw [if_neg hmiss] at h
    cases hF : fitLines glyphsAt wrap m rb lines 0 s0 with
    | panic => rw [hF] at h; cases h
    | err e => rw [hF] at h; cases h
    | ok fs =>
      rw [hF] at h
      replace h : (if fs < m then RunResult.err Err.fitError
          else match lines with
            | [] => RunResult.panic
            | line0 :: _ =>
              match line0 with
              | [] => RunResult.panic
              | _ :: _ => RunResult.ok fs) = RunResult.ok s := h
      by_cases hfs : fs < m
      · rw [if_pos hfs] at h; cases h
      · rw [if_neg hfs] at h
        cases lines with
        | nil => cases h
        | cons line0 rest =>
          cases line0 with
          | nil => cases h
          | cons t0 ts =>
            injection h with h2
            rw [← h2]
            exact ⟨not_lt.mp hfs, fitLines_ok_ladder glyphsAt wrap m rb _ 0 s0 fs hF⟩

lemma fitGlyphsRest_eval (fonts : List FontDef) (glyphsAt : ℕ → ℚ → List SectionGlyph)
    (wrap : Bool) (m : ℚ) (rb : ℕ) (line0 : List TextRun) (rest : List (List TextRun))
    (s0 fs : ℚ) (t0 : TextRun) (ts : List TextRun)
    (hmiss : anyFontMissing fonts (line0 :: rest) = false)
    (hline0 : line0 = t0 :: ts)
    (hF : fitLines glyphsAt wrap m rb (line0 :: rest) 0 s0 = .ok fs) :
    fitGlyphsRest fonts glyphsAt wrap m rb (line0 :: rest) s0 =
      if fs < m then .err .fitError else .ok fs := by
  unfold fitGlyphsRest
  rw [hmiss]
  simp only [Bool.false_eq_true, if_false, hF]
  simp only [hline0]

/-- C1: In wrap mode, the fit search starts at `max_size` and decrements by
4pt; `fit_glyphs` chooses the first size at which the check of
src/lib.rs:315-328 passes — the last laid-out glyph is the final byte of
the final run (no truncation) and its vertical position lies within the
rect (strictly above `rect.bottom`) — and returns FitError when no size ≥
`min_size` passes. `specSearch` is the spec-side first-fit search;
`wrapFits` is the code's per-size check. Hypotheses: well-formed rect, wrap
mode, non-empty run list whose last run is non-empty, all run fonts in the
catalog, and the layout yields at least one glyph at every size (an empty
glyph list panics instead, see C9). -/
theorem C1_wrap_first_fit (fonts : List FontDef) (glyphsAt : ℕ → ℚ → List SectionGlyph)
    (nwl : List (List TextRun)) (rect : Rect) (b : Block)
    (hrl : rect.left ≤ rect.right) (hrt : rect.top ≤ rect.bottom)
    (hw : b.wrap = true) (hne : b.text.isEmpty = false)
    (hlast : 1 ≤ lastLenOf b.text)
    (hmiss : anyFontMissing fonts [b.text] = false)
    (hg : ∀ t : ℚ, glyphsAt 0 t ≠ []) :
    fitGlyphs fonts glyphsAt nwl rect b =
      match specSearch (wrapFits glyphsAt b.text rect.bottom) b.maxSize b.minSize with
      | some s => .ok s
      | none => .err .fitError := by
  obtain ⟨t0, ts, htext⟩ : ∃ t0 ts, b.text = t0 :: ts := by
    cases hc : b.text with
    | nil => rw [hc] at hne; cases hne
    | cons t0 ts => exact ⟨t0, ts, rfl⟩
  rw [fitGlyphs_eval fonts glyphsAt nwl rect b hrl hrt,
    fitBranch_wrap fonts nwl (rect.bottom - rect.top) b hw]
  show fitGlyphsRest fonts glyphsAt b.wrap b.minSize rect.bottom [b.text] b.maxSize = _
  rw [hw]
  have hfit := fitLines_wrap_single glyphsAt b.minSize rect.bottom b.text hne hlast hg
    b.maxSize
  rw [fitGlyphsRest_eval fonts glyphsAt true b.minSize rect.bottom b.text [] b.maxSize
    (loopB (wrapFits glyphsAt b.text rect.bottom) b.minSize b.maxSize) t0 ts hmiss htext
    hfit]
  rw [specSearch_eq]
  by_cases hlt : loopB (wrapFits glyphsAt b.text rect.bottom) b.minSize b.maxSize < b.minSize
  · rw [if_pos hlt, if_neg (not_le.mpr hlt)]
  · rw [if_neg hlt, if_pos (not_lt.mp hlt)]

/-- Witness for C1 at a concrete block: one two-byte run in a 50 × 100 rect
with glyph data that fits immediately, so the search chooses `max_size`. -/
theorem C1_wrap_first_fit_witness :
    fitGlyphs [fontF] glyphsFitAt [] rect50 baseBlock =
      match specSearch (wrapFits glyphsFitAt baseBlock.text rect50.bottom)
          baseBlock.maxSize baseBlock.minSize with
      | some s => .ok s
      | none => .err .fitError :=
  C1_wrap_first_fit [fontF] glyphsFitAt [] rect50 baseBlock (by decide) (by decide) rfl
    (by decide) (by decide) (by decide) (fun t => List.cons_ne_nil _ _)

/-- C3: whenever fitting succeeds on a block with `min_size ≤ max_size`,
the chosen size lies in `[min_size, max_size]` and is `max_size` minus a
whole multiple of 4; the search never settles below `min_size`. -/
theorem C3_chosen_size_in_range (fonts : List FontDef)
    (glyphsAt : ℕ → ℚ → List SectionGlyph) (nwl : List (List TextRun)) (rect : Rect)
    (b : Block) (s : ℚ) (_hmm : b.minSize ≤ b.maxSize)
    (h : fitGlyphs fonts glyphsAt nwl rect b = .ok s) :
    b.minSize ≤ s ∧ s ≤ b.maxSize ∧ ∃ k : ℕ, s = b.maxSize - 4 * k := by
  unfold fitGlyphs at h
  cases h1 : sub32 rect.right rect.left with
  | panic => rw [h1] at h; cases h
  | err e => rw [h1] at h; cases h
  | ok tw =>
    rw [h1] at h
    cases h2 : sub32 rect.bottom rect.top with
    | panic => rw [h2] at h; cases h
    | err e => rw [h2] at h; cases h
    | ok th =>
      rw [h2] at h
      replace h : (match fitBranch fonts nwl th b with
        | RunResult.panic => RunResult.panic
        | RunResult.err e => RunResult.err e
        | RunResult.ok (lines, fontSize0) =>
          fitGlyphsRest fonts glyphsAt b.wrap b.minSize rect.bottom lines fontSize0) =
          RunResult.ok s := h
      cases h3 : fitBranch fonts nwl th b with
      | panic => rw [h3] at h; cases h
      | err e => rw [h3] at h; cases h
      | ok p =>
        obtain ⟨lines, s0⟩ := p
        rw [h3] at h
        replace h : fitGlyphsRest fonts glyphsAt b.wrap b.minSize rect.bottom lines s0 =
          .ok s := h
        obtain ⟨hm, k2, hk2⟩ := fitGlyphsRest_ok h
        obtain ⟨k1, hk1⟩ := fitBranch_ok_ladder h3
        have hs : s = b.maxSize - 4 * ((k1 : ℚ) + k2) := by
          rw [hk2, hk1]; ring
        refine ⟨hm, ?_, ⟨k1 + k2, ?_⟩⟩
        · have hk : (0 : ℚ) ≤ 4 * ((k1 : ℚ) + k2) := by positivity
          linarith [hs]
        · rw [hs]; push_cast; ring

/-- Witness for C3 at a concrete wrap-mode block where fitting succeeds at
`max_size = 12` with `min_size = 4`. -/
theorem C3_chosen_size_in_range_witness :
    (4 : ℚ) ≤ 12 ∧ (12 : ℚ) ≤ 12 ∧ ∃ k : ℕ, (12 : ℚ) = 12 - 4 * k :=
  C3_chosen_size_in_range [fontF] glyphsFitAt [] rect50 baseBlock 12 (by decide)
    (by decide)

lemma heightCheck_mono (sf : FontDef) (n th : ℕ)
    (hlh : 0 ≤ sf.heightUnscaled / sf.unitsPerEm) (s t : ℚ) (hst : t ≤ s)
    (hA : heightCheck sf n th s = true) : heightCheck sf n th t = true := by
  have hscale : ∀ u : ℚ, ptSizeToPxScale sf u 1 =
      u * (96 / 72 * (sf.heightUnscaled / sf.unitsPerEm)) := by
    intro u
    unfold ptSizeToPxScale
    ring
  have hc : (0 : ℚ) ≤ 96 / 72 * (sf.heightUnscaled / sf.unitsPerEm) :=
    mul_nonneg (by norm_num) hlh
  simp only [heightCheck, decide_eq_true_eq] at hA ⊢
  have hmono : ptSizeToPxScale sf t 1 ≤ ptSizeToPxScale sf s 1 := by
    rw [hscale t, hscale s]
    exact mul_le_mul_of_nonneg_right hst hc
  have hn : (0 : ℚ) ≤ (n : ℚ) := Nat.cast_nonneg n
  calc ptSizeToPxScale sf t 1 * (n : ℚ) ≤ ptSizeToPxScale sf s 1 * (n : ℚ) :=
        mul_le_mul_of_nonneg_right hmono hn
    _ < (th : ℚ) := hA

/-- C2 (amended): in no-wrap mode, with the height comparison strict as the
code implements it, `fit_glyphs` accepts the first size (4pt-descending from
`max_size`) at which `line_height(size) * number_of_lines` is strictly below
the rect height — computed from the metrics of the first run's font — and
the full-render check passes for every line (each line lays out exactly as
many glyphs as it has source bytes); it returns FitError when no size ≥
`min_size` qualifies. The layout hypotheses: the first run's font resolves
to `sf`; its height-per-em ratio is non-negative; and a line that renders
fully at some size renders fully at every smaller size (the natural
monotonicity of single-line layout, needed because the code searches the
lines sequentially without re-checking earlier lines). -/
theorem C2_nowrap_first_fit (fonts : List FontDef)
    (glyphsAt : ℕ → ℚ → List SectionGlyph) (nwl : List (List TextRun)) (rect : Rect)
    (b : Block) (t0 : TextRun) (ts : List TextRun) (sf : FontDef) (L0 : List TextRun)
    (rest0 : List (List TextRun)) (u : TextRun) (us : List TextRun)
    (hrl : rect.left ≤ rect.right) (hrt : rect.top ≤ rect.bottom)
    (hw : b.wrap = false) (htext : b.text = t0 :: ts)
    (hfind : fonts.find? (fun f => f.name = t0.font) = some sf)
    (hnwl : nwl = L0 :: rest0) (hL0 : L0 = u :: us)
    (hmiss : anyFontMissing fonts nwl = false)
    (hlastlens : ∀ L ∈ nwl, L.isEmpty = false → 1 ≤ lastLenOf L)
    (hlh : 0 ≤ sf.heightUnscaled / sf.unitsPerEm)
    (hmono : ∀ (i : ℕ) (L : List TextRun) (s t : ℚ), t ≤ s →
      lineOK glyphsAt L i s = true → lineOK glyphsAt L i t = true) :
    fitGlyphs fonts glyphsAt nwl rect b =
      match specSearch (noWrapFitsStrict sf glyphsAt nwl (rect.bottom - rect.top))
          b.maxSize b.minSize with
      | some s => .ok s
      | none => .err .fitError := by
  subst hnwl
  rw [fitGlyphs_eval fonts glyphsAt (L0 :: rest0) rect b hrl hrt,
    fitBranch_nowrap fonts (L0 :: rest0) (rect.bottom - rect.top) b t0 ts sf hw htext
      hfind]
  have hfn : noWrapFitsStrict sf glyphsAt (L0 :: rest0) (rect.bottom - rect.top) =
      fun t => heightCheck sf (L0 :: rest0).length (rect.bottom - rect.top) t &&
        linesConj glyphsAt (L0 :: rest0) 0 t := rfl
  rw [hfn, specSearch_eq]
  have hAmono := heightCheck_mono sf (L0 :: rest0).length (rect.bottom - rect.top) hlh
  by_cases h1 : loopB (heightCheck sf (L0 :: rest0).length (rect.bottom - rect.top))
      b.minSize b.maxSize < b.minSize
  · rw [if_pos h1]
    have h2 : loopB (fun t => heightCheck sf (L0 :: rest0).length (rect.bottom - rect.top) t &&
        linesConj glyphsAt (L0 :: rest0) 0 t) b.minSize b.maxSize < b.minSize := by
      refine loopB_mono_fail_all _ _ b.minSize ?_ b.maxSize h1
      intro t ht
      rw [Bool.and_eq_true] at ht
      exact ht.1
    rw [if_neg (not_le.mpr h2)]
  · rw [if_neg h1]
    show fitGlyphsRest fonts glyphsAt b.wrap b.minSize rect.bottom (L0 :: rest0)
      (loopB (heightCheck sf (L0 :: rest0).length (rect.bottom - rect.top))
        b.minSize b.maxSize) = _
    rw [hw]
    have hfit := fitLines_nowrap glyphsAt b.minSize rect.bottom hmono (L0 :: rest0) 0
      (loopB (heightCheck sf (L0 :: rest0).length (rect.bottom - rect.top))
        b.minSize b.maxSize) hlastlens
    rw [fitGlyphsRest_eval fonts glyphsAt false b.minSize rect.bottom L0 rest0 _ _ u us
      hmiss hL0 hfit]
    rw [loopB_seq_all (heightCheck sf (L0 :: rest0).length (rect.bottom - rect.top))
      (fun t => linesConj glyphsAt (L0 :: rest0) 0 t) b.minSize
      (fun s t hst hA => hAmono s t hst hA) b.maxSize]
    by_cases h2 : loopB (fun t => heightCheck sf (L0 :: rest0).length
        (rect.bottom - rect.top) t && linesConj glyphsAt (L0 :: rest0) 0 t)
        b.minSize b.maxSize < b.minSize
    · rw [if_pos h2, if_neg (not_le.mpr h2)]
    · rw [if_neg h2, if_pos (not_lt.mp h2)]

/-- Witness for C2 at a concrete no-wrap block: one two-byte run over a
16px-high rect with sizes 4..12; the pre-sizing loop rejects 12 (height
16 is not strictly below 16) and the search settles on 8. -/
theorem C2_nowrap_first_fit_witness :
    fitGlyphs [fontF] glyphsTwoAt nwLines1 rect16 noWrapBlock =
      match specSearch (noWrapFitsStrict fontF glyphsTwoAt nwLines1
          (rect16.bottom - rect16.top)) noWrapBlock.maxSize noWrapBlock.minSize with
      | some s => .ok s
      | none => .err .fitError :=
  C2_nowrap_first_fit [fontF] glyphsTwoAt nwLines1 rect16 noWrapBlock runF2 [] fontF
    [runF2] [] runF2 [] (by decide) (by decide) rfl rfl rfl rfl rfl (by decide)
    (by decide) (by norm_num [fontF]) (fun i L s t _ h => h)

/-- C2 (counterexample to the claim as stated): with the first-run font
metrics making `line_height(s) = 4/3 * s`, one line, rect height 16 and
sizes 4..12, size 12 satisfies the claim's condition "total height ≤ rect
height and every line renders fully" (16 ≤ 16), and is the first such size;
but the code's pre-sizing loop keeps decrementing while `>=` and the model
returns 8, not 12. -/
theorem C2_counterexample :
    fitGlyphs [fontF] glyphsTwoAt nwLines1 rect16 noWrapBlock = .ok 8 ∧
    specSearch (noWrapFitsLE fontF glyphsTwoAt nwLines1 16) 12 4 = some 12 ∧
    (8 : ℚ) ≠ 12 := by
  have hA12 : heightCheck fontF nwLines1.length (rect16.bottom - rect16.top) 12 = false := by
    norm_num [heightCheck, ptSizeToPxScale, fontF, nwLines1, rect16]
  have hA8 : heightCheck fontF nwLines1.length (rect16.bottom - rect16.top) 8 = true := by
    norm_num [heightCheck, ptSizeToPxScale, fontF, nwLines1, rect16]
  have hloopA : loopB (heightCheck fontF nwLines1.length (rect16.bottom - rect16.top))
      noWrapBlock.minSize noWrapBlock.maxSize = 8 := by
    show loopB (heightCheck fontF nwLines1.length (rect16.bottom - rect16.top)) 4 12 = 8
    rw [loopB_eq, if_pos (by norm_num : (4 : ℚ) ≤ 12), hA12]
    rw [if_neg (by simp), show (12 : ℚ) - 4 = 8 from by norm_num]
    rw [loopB_eq, if_pos (by norm_num : (4 : ℚ) ≤ 8), hA8, if_pos rfl]
  have hconj8 : linesConj glyphsTwoAt nwLines1 0 8 = true := by decide
  have hloopC : loopB (fun t => linesConj glyphsTwoAt nwLines1 0 t)
      noWrapBlock.minSize (8 : ℚ) = 8 := by
    show loopB (fun t => linesConj glyphsTwoAt nwLines1 0 t) 4 8 = 8
    rw [loopB_eq, if_pos (by norm_num : (4 : ℚ) ≤ 8)]
    rw [show linesConj glyphsTwoAt nwLines1 0 8 = true from hconj8, if_pos rfl]
  refine ⟨?_, ?_, by norm_num⟩
  · rw [fitGlyphs_eval [fontF] glyphsTwoAt nwLines1 rect16 noWrapBlock (by decide)
      (by decide)]
    rw [fitBranch_nowrap [fontF] nwLines1 (rect16.bottom - rect16.top) noWrapBlock runF2
      [] fontF rfl rfl rfl]
    rw [hloopA, if_neg (by norm_num [noWrapBlock] : ¬ ((8 : ℚ) < noWrapBlock.minSize))]
    show fitGlyphsRest [fontF] glyphsTwoAt false noWrapBlock.minSize
      rect16.bottom ([runF2] :: ([] : List (List TextRun))) 8 = .ok 8
    have hfit := fitLines_nowrap glyphsTwoAt noWrapBlock.minSize rect16.bottom
      (fun i L s t _ h => h) nwLines1 0 8 (by decide)
    rw [fitGlyphsRest_eval [fontF] glyphsTwoAt false noWrapBlock.minSize rect16.bottom
      [runF2] [] 8 (loopB (fun t => linesConj glyphsTwoAt nwLines1 0 t)
        noWrapBlock.minSize 8) runF2 [] (by decide) rfl hfit]
    rw [hloopC, if_neg (by norm_num [noWrapBlock] : ¬ ((8 : ℚ) < noWrapBlock.minSize))]
  · rw [specSearch_eq]
    have hle12 : noWrapFitsLE fontF glyphsTwoAt nwLines1 16 12 = true := by
      unfold noWrapFitsLE
      rw [Bool.and_eq_true]
      constructor
      · norm_num [ptSizeToPxScale, fontF, nwLines1]
      · decide
    have hloopLE : loopB (noWrapFitsLE fontF glyphsTwoAt nwLines1 16) 4 12 = 12 := by
      rw [loopB_eq, if_pos (by norm_num : (4 : ℚ) ≤ 12), hle12, if_pos rfl]
    rw [hloopLE, if_pos (by norm_num : (4 : ℚ) ≤ 12)]

/-- C4 (code_bug evidence): `parse_color` strips the leading `#` into `hex`
but then calls `from_str_radix` on the original unstripped string
(src/lib.rs:398-404), so `"#FF0000"` fails with ColorParseError instead of
parsing to (255,0,0,255) as the spec states; without the `#` the 6- and
8-digit forms parse exactly as the spec describes, confirming that the
stripping was the intent. -/
theorem C4_parse_color_hash_bug :
    parse_color ("#FF0000".toList) = .err .colorError ∧
    parse_color ("FF0000".toList) = .ok ⟨255, 0, 0, 255⟩ ∧
    parse_color ("00FF0080".toList) = .ok ⟨0, 255, 0, 128⟩ := by
  refine ⟨by decide, by decide, by decide⟩

/-- C5 (amended): when the blocks before the first block with an invalid
rect all process successfully, `overlay_text` returns a GeometryError at
that block; invalid means a coordinate exceeding the image bounds
(`left`/`right` > width or `top`/`bottom` > height), `left ≥ right`, or
`top > bottom` — the code's validation (src/lib.rs:433-442). The caller's
image is never written: the function takes `&OverlayOptions` and draws on
the fresh copy made by `to_rgba8()` (modelled by `toRgba8`). -/
theorem C5_first_invalid_rect_geom_error (ext : Externals) (o : OverlayOptions)
    (pre : List Block) (b : Block) (rest : List Block) (pix2 : ℕ → ℕ → Pixel)
    (hblocks : o.blocks = pre ++ b :: rest)
    (hpre : processBlocks ext o.fonts o.background.width o.background.height
      (toRgba8 o.background).pix pre = .ok pix2)
    (hinv : rectInvalid b.rect o.background.width o.background.height) :
    overlay_text ext o = .err .geomError := by
  unfold overlay_text
  rw [hblocks, processBlocks_append ext o.fonts o.background.width o.background.height
    pre (b :: rest) (toRgba8 o.background).pix, hpre]
  show (match processBlocks ext o.fonts o.background.width o.background.height pix2
      (b :: rest) with
    | RunResult.panic => RunResult.panic
    | RunResult.err e => RunResult.err e
    | RunResult.ok pix =>
      RunResult.ok (Canvas.mk o.background.width o.background.height pix)) =
    .err .geomError
  simp only [processBlocks]
  rw [processBlock_invalid ext o.fonts o.background.width o.background.height pix2 b hinv]

/-- Witness for the amended C5: a single block whose rect has
`left = right = 5` makes `overlay_text` return GeometryError. -/
theorem C5_first_invalid_rect_geom_error_witness :
    overlay_text extLow optsDegenerate = .err .geomError :=
  C5_first_invalid_rect_geom_error extLow optsDegenerate [] blockDegenerate []
    (toRgba8 canvas100).pix rfl rfl (by decide)

/-- C5 (counterexample to the claim as stated): the rect
`top = bottom = 100` in a 100 × 100 image covers only pixel row 100, which
lies fully outside the image, yet no coordinate exceeds the bounds and the
rect is not degenerate by the code's test, so validation lets the block
through; `overlay_text` then panics in the fit check (zero-height bounds
lay out no glyphs) instead of returning the GeometryError the claim
requires. -/
theorem C5_counterexample :
    rectFullyOutside rectEdge 100 100 ∧
    overlay_text extEmptyGlyphs opts5 = .panic ∧
    (RunResult.panic : RunResult Canvas) ≠ .err .geomError := by
  refine ⟨?_, by rfl, fun h => RunResult.noConfusion h⟩
  intro x y _ _ hy _ hcontra
  have h100 : (100 : ℕ) ≤ y := hy
  exact absurd hcontra.2 (by omega)

/-- C6 (counterexample to the claim as stated): at a glyph pixel whose
current text-layer value is opaque white over a transparent block
background, with run color (200,0,0,255) and coverage 1/2, the code stores
red channel 100 — blending against the block background color — while the
claim's formula `dest*(1-c) + src*c` against the destination pixel's
current value yields 227. -/
theorem C6_counterexample :
    (drawTextPixel ⟨255, 255, 255, 255⟩ ⟨0, 0, 0, 0⟩ ⟨200, 0, 0, 255⟩ (1 / 2)).r = 100 ∧
    specOverChannel 255 200 (1 / 2) = 227 ∧ (100 : ℕ) ≠ 227 := by
  refine ⟨?_, ?_, by norm_num⟩
  · unfold drawTextPixel
    rw [if_pos (by norm_num : (1 / 2 : ℚ) < 1)]
    unfold blend
    rw [if_neg (by norm_num : ¬ (1 : ℚ) ≤ 1 / 2)]
    show toU8 ((0 : ℕ) * (1 - 1 / 2 : ℚ) + (200 : ℕ) * (1 / 2 : ℚ)) = 100
    unfold toU8
    norm_num
    decide
  · unfold specOverChannel toU8
    norm_num
    decide

/-- C6 (amended): at each glyph pixel the stored text-layer value is the
"over" blend of the run color against the block's background color — each
color channel becomes `bgPixel*(1-c) + color*c` — regardless of the layer's
previous content (`old` is overwritten, src/lib.rs:579), and at coverage
≥ 1 the pixel is replaced by the run color. -/
theorem C6_blend_against_background (old bg color : Pixel) (c : ℚ) :
    (c < 1 →
      (drawTextPixel old bg color c).r = specOverChannel bg.r color.r c ∧
      (drawTextPixel old bg color c).g = specOverChannel bg.g color.g c ∧
      (drawTextPixel old bg color c).b = specOverChannel bg.b color.b c) ∧
    (1 ≤ c → drawTextPixel old bg color c = color) := by
  constructor
  · intro h
    unfold drawTextPixel
    rw [if_pos h]
    unfold blend
    rw [if_neg (not_le.mpr h)]
    exact ⟨rfl, rfl, rfl⟩
  · intro h
    unfold drawTextPixel
    rw [if_neg (not_lt.mpr h)]

/-- Witness for the amended C6 at coverage 1/2 and at coverage 2. -/
theorem C6_blend_against_background_witness :
    (drawTextPixel ⟨1, 2, 3, 4⟩ ⟨10, 20, 30, 40⟩ ⟨50, 60, 70, 80⟩ (1 / 2)).r =
      specOverChannel 10 50 (1 / 2) ∧
    drawTextPixel ⟨1, 2, 3, 4⟩ ⟨10, 20, 30, 40⟩ ⟨50, 60, 70, 80⟩ 2 = ⟨50, 60, 70, 80⟩ :=
  ⟨((C6_blend_against_background ⟨1, 2, 3, 4⟩ ⟨10, 20, 30, 40⟩ ⟨50, 60, 70, 80⟩
      (1 / 2)).1 (by norm_num)).1,
   (C6_blend_against_background ⟨1, 2, 3, 4⟩ ⟨10, 20, 30, 40⟩ ⟨50, 60, 70, 80⟩
      2).2 (by norm_num)⟩

/-- C7 (code_bug evidence): at full coverage the shadow-layer stamp stores
the run's text color, not the shadow color (src/lib.rs:585-591): with the
default shadow color (0,0,0,25) and run color (255,0,0,255), coverage 1
writes (255,0,0,255) into the shadow layer, while coverage 1/2 correctly
writes the shadow color with scaled alpha (0,0,0,12). -/
theorem C7_shadow_full_coverage_run_color :
    drawShadowPixel defaultShadowColor ⟨255, 0, 0, 255⟩ 1 = ⟨255, 0, 0, 255⟩ ∧
    (⟨255, 0, 0, 255⟩ : Pixel) ≠ defaultShadowColor ∧
    drawShadowPixel defaultShadowColor ⟨255, 0, 0, 255⟩ (1 / 2) = ⟨0, 0, 0, 12⟩ := by
  refine ⟨?_, by decide, ?_⟩
  · unfold drawShadowPixel
    rw [if_neg (by norm_num : ¬ (1 : ℚ) < 1)]
  · unfold drawShadowPixel
    rw [if_pos (by norm_num : (1 / 2 : ℚ) < 1)]
    unfold scaleAlpha defaultShadowColor toU8
    norm_num
    decide

/-- C8: `overlay_text` is modelled as a pure function — the source reads no
clock, randomness, or other ambient state (its only side effect is debug
printing, which does not feed the result) — so two runs on equal inputs,
e.g. two fresh copies of the same background, return identical outputs. -/
theorem C8_deterministic (ext : Externals) (o1 o2 : OverlayOptions) (h : o1 = o2) :
    overlay_text ext o1 = overlay_text ext o2 := by
  rw [h]

/-- Witness for C8 at a concrete input. -/
theorem C8_deterministic_witness :
    overlay_text extLow optsDegenerate = overlay_text extLow optsDegenerate :=
  C8_deterministic extLow optsDegenerate optsDegenerate rfl

/-- C9: a block passing every declared validation — rect valid for the
100 × 100 image, fonts present, `min_size ≤ max_size` — on which
`overlay_text` panics instead of returning an error: in wrap mode, when the
layout yields an empty glyph list, `glyphs.last().unwrap()`
(src/lib.rs:318) panics. `blockZeroH` triggers it with a zero-height rect
(no line fits, so the wrap layout truncates everything); `blockEmptyRun`
is the claim's own example of a run list with only empty strings, which
panics one line earlier on `sections.last().unwrap().text.len() - 1`
(src/lib.rs:306) under checked arithmetic and on the same `unwrap` under
release semantics. -/
theorem C9_validated_block_panics :
    ¬ rectInvalid blockZeroH.rect 100 100 ∧
    anyFontMissing [fontF] [blockZeroH.text] = false ∧
    blockZeroH.minSize ≤ blockZeroH.maxSize ∧
    blockZeroH.wrap = true ∧
    extEmptyGlyphs.glyphsAt blockZeroH rectZeroH 0 blockZeroH.maxSize = [] ∧
    overlay_text extEmptyGlyphs opts9 = .panic ∧
    ¬ rectInvalid blockEmptyRun.rect 100 100 ∧
    overlay_text extEmptyGlyphs opts9b = .panic := by
  refine ⟨by decide, by decide, by decide, rfl, rfl, by rfl, by decide, by rfl⟩

/-- C10: the border/padding shrink of the working rect uses unchecked
`u32` subtraction and the shrunken rect is never re-validated.
`blockBorderWide` passes the geometry check but its 20px border exceeds
the 10px rect, so `rect.right - border_width` (src/lib.rs:504, 523)
underflows — a panic, not a GeometryError. `blockPadBad`'s padding shrinks
without underflow to `left = 8 > right = 7`; no check against the
`left < right` invariant runs (that rect would fail the validation
predicate, as stated below), and `fit_glyphs` then panics computing
`rect.right - rect.left` (src/lib.rs:176). -/
theorem C10_shrink_unchecked_panics :
    ¬ rectInvalid blockBorderWide.rect 100 100 ∧
    overlay_text extLow opts10a = .panic ∧
    ¬ rectInvalid blockPadBad.rect 100 100 ∧
    rectInvalid ⟨0, 10, 8, 7⟩ 100 100 ∧
    overlay_text extLow opts10b = .panic := by
  refine ⟨by decide, by rfl, by decide, by decide, by rfl⟩
